import Mathlib

/-!
Verification of the keybinds library core: the key/modifier data model and
binding-string parser (`src/key.rs`), and the incremental key-binding
dispatcher (`src/keybind.rs`).

Strings are modelled as `List Char`.  Instants and durations are modelled as
`Nat` (nanoseconds); `Instant::duration_since` is saturating subtraction,
which is exactly `Nat` subtraction.  The build is the non-macOS one, so
`Mods::MOD = CTRL` and `Mods::SUPER = WIN`.
-/

set_option maxHeartbeats 1600000

namespace KB

/-- Alias for the character type, still visible once `Key.Char` shadows the
name `Char` inside this namespace. -/
abbrev UChar : Type := Char

/-- `Key` from `src/key.rs`: one logical key.  `Char` carries a Unicode
character; `Unidentified` and `Ignored` are the two sentinel virtual keys. -/
inductive Key where
  | Char (c : Char)
  | Up
  | Right
  | Down
  | Left
  | Enter
  | Backspace
  | Delete
  | Home
  | End
  | PageUp
  | PageDown
  | Esc
  | Tab
  | Backtab
  | Insert
  | Copy
  | Cut
  | Paste
  | Clear
  | Undo
  | Redo
  | ZoomIn
  | ZoomOut
  | ScrollLock
  | NumLock
  | FnLock
  | PrintScreen
  | Menu
  | Play
  | Pause
  | PlayPause
  | Stop
  | Rewind
  | NextTrack
  | PrevTrack
  | VolumeUp
  | VolumeDown
  | Mute
  | F1
  | F2
  | F3
  | F4
  | F5
  | F6
  | F7
  | F8
  | F9
  | F10
  | F11
  | F12
  | F13
  | F14
  | F15
  | F16
  | F17
  | F18
  | F19
  | F20
  | F21
  | F22
  | F23
  | F24
  | F25
  | F26
  | F27
  | F28
  | F29
  | F30
  | F31
  | F32
  | F33
  | F34
  | F35
  | Unidentified
  | Ignored

/-- The non-`Char` keys in declaration order, used only to build the
decidable-equality instance below. -/
def namedVariantList : List Key :=
  [.Up, .Right, .Down, .Left, .Enter, .Backspace, .Delete, .Home, .End,
   .PageUp, .PageDown, .Esc, .Tab, .Backtab, .Insert, .Copy, .Cut, .Paste,
   .Clear, .Undo, .Redo, .ZoomIn, .ZoomOut, .ScrollLock, .NumLock, .FnLock,
   .PrintScreen, .Menu, .Play, .Pause, .PlayPause, .Stop, .Rewind,
   .NextTrack, .PrevTrack, .VolumeUp, .VolumeDown, .Mute, .F1, .F2, .F3,
   .F4, .F5, .F6, .F7, .F8, .F9, .F10, .F11, .F12, .F13, .F14, .F15, .F16,
   .F17, .F18, .F19, .F20, .F21, .F22, .F23, .F24, .F25, .F26, .F27, .F28,
   .F29, .F30, .F31, .F32, .F33, .F34, .F35, .Unidentified, .Ignored]

/-- Injective code of a key (the derived decidable equality overflows the
elaborator on an inductive of this size, so the instance is built by hand). -/
def Key.enc : Key → Nat ⊕ UChar
  | .Char c => .inr c
  | .Up => .inl 0
  | .Right => .inl 1
  | .Down => .inl 2
  | .Left => .inl 3
  | .Enter => .inl 4
  | .Backspace => .inl 5
  | .Delete => .inl 6
  | .Home => .inl 7
  | .End => .inl 8
  | .PageUp => .inl 9
  | .PageDown => .inl 10
  | .Esc => .inl 11
  | .Tab => .inl 12
  | .Backtab => .inl 13
  | .Insert => .inl 14
  | .Copy => .inl 15
  | .Cut => .inl 16
  | .Paste => .inl 17
  | .Clear => .inl 18
  | .Undo => .inl 19
  | .Redo => .inl 20
  | .ZoomIn => .inl 21
  | .ZoomOut => .inl 22
  | .ScrollLock => .inl 23
  | .NumLock => .inl 24
  | .FnLock => .inl 25
  | .PrintScreen => .inl 26
  | .Menu => .inl 27
  | .Play => .inl 28
  | .Pause => .inl 29
  | .PlayPause => .inl 30
  | .Stop => .inl 31
  | .Rewind => .inl 32
  | .NextTrack => .inl 33
  | .PrevTrack => .inl 34
  | .VolumeUp => .inl 35
  | .VolumeDown => .inl 36
  | .Mute => .inl 37
  | .F1 => .inl 38
  | .F2 => .inl 39
  | .F3 => .inl 40
  | .F4 => .inl 41
  | .F5 => .inl 42
  | .F6 => .inl 43
  | .F7 => .inl 44
  | .F8 => .inl 45
  | .F9 => .inl 46
  | .F10 => .inl 47
  | .F11 => .inl 48
  | .F12 => .inl 49
  | .F13 => .inl 50
  | .F14 => .inl 51
  | .F15 => .inl 52
  | .F16 => .inl 53
  | .F17 => .inl 54
  | .F18 => .inl 55
  | .F19 => .inl 56
  | .F20 => .inl 57
  | .F21 => .inl 58
  | .F22 => .inl 59
  | .F23 => .inl 60
  | .F24 => .inl 61
  | .F25 => .inl 62
  | .F26 => .inl 63
  | .F27 => .inl 64
  | .F28 => .inl 65
  | .F29 => .inl 66
  | .F30 => .inl 67
  | .F31 => .inl 68
  | .F32 => .inl 69
  | .F33 => .inl 70
  | .F34 => .inl 71
  | .F35 => .inl 72
  | .Unidentified => .inl 73
  | .Ignored => .inl 74

/-- Partial inverse of `Key.enc`. -/
def Key.dec : Nat ⊕ UChar → Key
  | .inr c => .Char c
  | .inl n => namedVariantList.getD n .Up

theorem Key.dec_enc : ∀ k : Key, Key.dec (Key.enc k) = k := by
  intro k
  cases k <;> rfl

instance : DecidableEq Key := fun a b =>
  if h : Key.enc a = Key.enc b then
    .isTrue (by
      have h2 := congrArg Key.dec h
      rwa [Key.dec_enc, Key.dec_enc] at h2)
  else .isFalse (fun hab => h (by rw [hab]))

/-- `Key::is_named` from `src/key.rs`: named keys are every non-`Char`
variant except the two sentinels, plus the space and `+` characters. -/
def Key.isNamed : Key → Bool
  | .Char ' ' | .Char '+' => true
  | .Char _ | .Ignored | .Unidentified => false
  | _ => true

/-- `Mods` from `src/key.rs`: the five modifier-key bitflags, modelled as one
`Bool` per flag. -/
structure Mods where
  ctrl : Bool
  cmd : Bool
  alt : Bool
  win : Bool
  shift : Bool
deriving DecidableEq

namespace Mods

def NONE : Mods := ⟨false, false, false, false, false⟩
def CTRL : Mods := ⟨true, false, false, false, false⟩
def CMD : Mods := ⟨false, true, false, false, false⟩
def ALT : Mods := ⟨false, false, true, false, false⟩
def WIN : Mods := ⟨false, false, false, true, false⟩
def SHIFT : Mods := ⟨false, false, false, false, true⟩

/-- `Mods::MOD` on a non-macOS target. -/
def MOD : Mods := CTRL
/-- `Mods::SUPER` on a non-macOS target. -/
def SUPER : Mods := WIN

/-- Bitwise `|` of two modifier sets. -/
def or (a b : Mods) : Mods :=
  ⟨a.ctrl || b.ctrl, a.cmd || b.cmd, a.alt || b.alt, a.win || b.win, a.shift || b.shift⟩

/-- Bitwise `&` of two modifier sets. -/
def and (a b : Mods) : Mods :=
  ⟨a.ctrl && b.ctrl, a.cmd && b.cmd, a.alt && b.alt, a.win && b.win, a.shift && b.shift⟩

/-- bitflags' `contains`: all bits of `b` are set in `a`. -/
def contains (a b : Mods) : Bool := a.and b == b

/-- `mods.remove(Mods::SHIFT)`. -/
def removeShift (a : Mods) : Mods := { a with shift := false }

end Mods

/-- `KeyInput` from `src/key.rs`: one key press together with its modifiers. -/
structure KeyInput where
  key : Key
  mods : Mods
deriving DecidableEq

/-- `KeyInput::new`: the `Shift` bit is dropped when the key is not named. -/
def KeyInput.new (k : Key) (m : Mods) : KeyInput :=
  if k.isNamed then ⟨k, m⟩ else ⟨k, m.removeShift⟩

/-- `Match` from `src/key.rs`: result of matching inputs against a stored
key sequence. -/
inductive Match where
  | Matched
  | Prefix
  | Unmatch
deriving DecidableEq

/-- `KeySeq` from `src/key.rs`: the stored sequence of key inputs (the
small-vector representation detail is irrelevant to the semantics). -/
structure KeySeq where
  inputs : List KeyInput
deriving DecidableEq

/-- The loop of `KeySeq::match_to`, walking both iterators in lockstep. -/
def matchToList : List KeyInput → List KeyInput → Match
  | l :: ls, r :: rs => if l ≠ r then .Unmatch else matchToList ls rs
  | _ :: _, [] => .Prefix
  | [], _ :: _ => .Unmatch
  | [], [] => .Matched

/-- `KeySeq::match_to`. -/
def KeySeq.match_to (s : KeySeq) (inputs : List KeyInput) : Match :=
  matchToList s.inputs inputs

/-- `Error` from `src/error.rs`. -/
inductive Error where
  | UnknownKey (s : String)
  | UnknownModifier (s : String)
  | EmptyKey
  | EmptyModifier
  | EmptyKeySequence
  | ShiftUnavailable (k : Key)
deriving DecidableEq

/-- A Rust `&str`, modelled as its characters. -/
abbrev Str := List Char

/-- `u8::is_ascii_whitespace`, the class used by `trim_ascii` and
`split_ascii_whitespace`. -/
def isAsciiWs (c : Char) : Bool :=
  c == ' ' || c == '\t' || c == '\n' || c == '\x0C' || c == '\r'

/-- `str::trim_ascii`. -/
def trimAscii (s : Str) : Str :=
  ((s.dropWhile isAsciiWs).reverse.dropWhile isAsciiWs).reverse

/-- The named-key table of `Key::from_str` (`src/key.rs`), in source order:
each entry lists the accepted spellings and the resulting key. -/
def namedKeyTable : List (List String × Key) := [
  (["space", "Space", "SPACE"], .Char ' '),
  (["plus", "Plus", "PLUS"], .Char '+'),
  (["up", "Up", "UP"], .Up),
  (["right", "Right", "RIGHT"], .Right),
  (["down", "Down", "DOWN"], .Down),
  (["left", "Left", "LEFT"], .Left),
  (["enter", "Enter", "ENTER"], .Enter),
  (["backspace", "Backspace", "BACKSPACE"], .Backspace),
  (["delete", "Delete", "DELETE"], .Delete),
  (["home", "Home", "HOME"], .Home),
  (["end", "End", "END"], .End),
  (["pageup", "PageUp", "PAGEUP"], .PageUp),
  (["pagedown", "PageDown", "PAGEDOWN"], .PageDown),
  (["esc", "Esc", "ESC", "escape", "Escape", "ESCAPE"], .Esc),
  (["tab", "Tab", "TAB"], .Tab),
  (["backtab", "Backtab", "BACKTAB"], .Backtab),
  (["insert", "Insert", "INSERT"], .Insert),
  (["copy", "Copy", "COPY"], .Copy),
  (["cut", "Cut", "CUT"], .Cut),
  (["paste", "Paste", "PASTE"], .Paste),
  (["clear", "Clear", "CLEAR"], .Clear),
  (["undo", "Undo", "UNDO"], .Undo),
  (["redo", "Redo", "REDO"], .Redo),
  (["zoomin", "ZoomIn", "ZOOMIN"], .ZoomIn),
  (["zoomout", "ZoomOut", "ZOOMOUT"], .ZoomOut),
  (["scrolllock", "ScrollLock", "SCROLLLOCK"], .ScrollLock),
  (["fnlock", "FnLock", "FNLOCK"], .FnLock),
  (["numlock", "NumLock", "NUMLOCK"], .NumLock),
  (["printscreen", "PrintScreen", "PRINTSCREEN"], .PrintScreen),
  (["menu", "Menu", "MENU"], .Menu),
  (["play", "Play", "PLAY"], .Play),
  (["pause", "Pause", "PAUSE"], .Pause),
  (["playpause", "PlayPause", "PLAYPAUSE"], .PlayPause),
  (["stop", "Stop", "STOP"], .Stop),
  (["rewind", "Rewind", "REWIND"], .Rewind),
  (["nexttrack", "NextTrack", "NEXTTRACK"], .NextTrack),
  (["prevtrack", "PrevTrack", "PREVTRACK"], .PrevTrack),
  (["volumeup", "VolumeUp", "VOLUMEUP"], .VolumeUp),
  (["volumedown", "VolumeDown", "VOLUMEDOWN"], .VolumeDown),
  (["mute", "Mute", "MUTE"], .Mute),
  (["f1", "F1"], .F1),
  (["f2", "F2"], .F2),
  (["f3", "F3"], .F3),
  (["f4", "F4"], .F4),
  (["f5", "F5"], .F5),
  (["f6", "F6"], .F6),
  (["f7", "F7"], .F7),
  (["f8", "F8"], .F8),
  (["f9", "F9"], .F9),
  (["f10", "F10"], .F10),
  (["f11", "F11"], .F11),
  (["f12", "F12"], .F12),
  (["f13", "F13"], .F13),
  (["f14", "F14"], .F14),
  (["f15", "F15"], .F15),
  (["f16", "F16"], .F16),
  (["f17", "F17"], .F17),
  (["f18", "F18"], .F18),
  (["f19", "F19"], .F19),
  (["f20", "F20"], .F20),
  (["f21", "F21"], .F21),
  (["f22", "F22"], .F22),
  (["f23", "F23"], .F23),
  (["f24", "F24"], .F24),
  (["f25", "F25"], .F25),
  (["f26", "F26"], .F26),
  (["f27", "F27"], .F27),
  (["f28", "F28"], .F28),
  (["f29", "F29"], .F29),
  (["f30", "F30"], .F30),
  (["f31", "F31"], .F31),
  (["f32", "F32"], .F32),
  (["f33", "F33"], .F33),
  (["f34", "F34"], .F34),
  (["f35", "F35"], .F35)]

/-- `Key::from_str`: trim ASCII whitespace; a single remaining character is
that character key; otherwise look the spelling up in the named-key table. -/
def parseKey (s : Str) : Except Error Key :=
  let t := trimAscii s
  match t with
  | [c] => .ok (.Char c)
  | _ =>
    match namedKeyTable.find? (fun e => e.1.contains (String.mk t)) with
    | some e => .ok e.2
    | none => if t = [] then .error .EmptyKey else .error (.UnknownKey (String.mk t))

/-- The modifier table of `Mods::from_str` (`src/key.rs`), in source order. -/
def modsTable : List (List String × Mods) := [
  (["Control", "control", "CONTROL", "Ctrl", "ctrl", "CTRL"], Mods.CTRL),
  (["Command", "command", "COMMAND", "Cmd", "cmd", "CMD"], Mods.CMD),
  (["Mod", "mod", "MOD"], Mods.MOD),
  (["Alt", "alt", "ALT", "Option", "option", "OPTION"], Mods.ALT),
  (["Super", "super", "SUPER"], Mods.SUPER),
  (["Shift", "shift", "SHIFT"], Mods.SHIFT)]

/-- `Mods::from_str`. -/
def parseMods (s : Str) : Except Error Mods :=
  let t := trimAscii s
  match modsTable.find? (fun e => e.1.contains (String.mk t)) with
  | some e => .ok e.2
  | none => if t = [] then .error .EmptyModifier else .error (.UnknownModifier (String.mk t))

/-- The loop of `KeyInput::from_str` over the `'+'`-separated pieces: every
piece except the last is OR-combined as a modifier, the last piece is the
key, and `Shift` with a non-named key is rejected.  The `[]` case is
unreachable because `split` never yields an empty iterator. -/
def parseKeyInputLoop : Mods → List Str → Except Error KeyInput
  | m, [t] =>
    match parseKey t with
    | .error e => .error e
    | .ok k =>
      if m.shift && !k.isNamed then .error (.ShiftUnavailable k)
      else .ok ⟨k, m⟩
  | m, t :: t2 :: ts =>
    match parseMods t with
    | .error e => .error e
    | .ok mt => parseKeyInputLoop (m.or mt) (t2 :: ts)
  | _, [] => .error .EmptyKey

/-- `KeyInput::from_str`: trim, split on `'+'`, then run the loop. -/
def parseKeyInput (s : Str) : Except Error KeyInput :=
  parseKeyInputLoop Mods.NONE ((trimAscii s).splitOn '+')

/-- `str::split_ascii_whitespace`: maximal runs of non-whitespace. -/
def splitAsciiWhitespace (s : Str) : List Str :=
  (s.splitOnP isAsciiWs).filter (fun t => !t.isEmpty)

/-- `collect::<Result<_, _>>` over the token parses, stopping at the first
error, as in `KeySeq::from_str`. -/
def parseInputs : List Str → Except Error (List KeyInput)
  | [] => .ok []
  | t :: ts =>
    match parseKeyInput t with
    | .error e => .error e
    | .ok i =>
      match parseInputs ts with
      | .error e => .error e
      | .ok is => .ok (i :: is)

/-- `KeySeq::from_str`: split on ASCII whitespace, parse every token, and
reject an empty result. -/
def parseKeySeq (s : Str) : Except Error KeySeq :=
  match parseInputs (splitAsciiWhitespace s) with
  | .error e => .error e
  | .ok is => if is.isEmpty then .error .EmptyKeySequence else .ok ⟨is⟩

/-- `Display for Key`: the canonical spelling of a key. -/
def formatKey : Key → Str
  | .Char ' ' => "Space".data
  | .Char '+' => "Plus".data
  | .Char c => [c]
  | .Up => "Up".data
  | .Right => "Right".data
  | .Down => "Down".data
  | .Left => "Left".data
  | .Enter => "Enter".data
  | .Backspace => "Backspace".data
  | .Delete => "Delete".data
  | .Home => "Home".data
  | .End => "End".data
  | .PageUp => "PageUp".data
  | .PageDown => "PageDown".data
  | .Esc => "Esc".data
  | .Tab => "Tab".data
  | .Backtab => "Backtab".data
  | .Insert => "Insert".data
  | .Copy => "Copy".data
  | .Cut => "Cut".data
  | .Paste => "Paste".data
  | .Clear => "Clear".data
  | .Undo => "Undo".data
  | .Redo => "Redo".data
  | .ZoomIn => "ZoomIn".data
  | .ZoomOut => "ZoomOut".data
  | .ScrollLock => "ScrollLock".data
  | .NumLock => "NumLock".data
  | .FnLock => "FnLock".data
  | .PrintScreen => "PrintScreen".data
  | .Menu => "Menu".data
  | .Play => "Play".data
  | .Pause => "Pause".data
  | .PlayPause => "PlayPause".data
  | .Stop => "Stop".data
  | .Rewind => "Rewind".data
  | .NextTrack => "NextTrack".data
  | .PrevTrack => "PrevTrack".data
  | .VolumeUp => "VolumeUp".data
  | .VolumeDown => "VolumeDown".data
  | .Mute => "Mute".data
  | .F1 => "F1".data
  | .F2 => "F2".data
  | .F3 => "F3".data
  | .F4 => "F4".data
  | .F5 => "F5".data
  | .F6 => "F6".data
  | .F7 => "F7".data
  | .F8 => "F8".data
  | .F9 => "F9".data
  | .F10 => "F10".data
  | .F11 => "F11".data
  | .F12 => "F12".data
  | .F13 => "F13".data
  | .F14 => "F14".data
  | .F15 => "F15".data
  | .F16 => "F16".data
  | .F17 => "F17".data
  | .F18 => "F18".data
  | .F19 => "F19".data
  | .F20 => "F20".data
  | .F21 => "F21".data
  | .F22 => "F22".data
  | .F23 => "F23".data
  | .F24 => "F24".data
  | .F25 => "F25".data
  | .F26 => "F26".data
  | .F27 => "F27".data
  | .F28 => "F28".data
  | .F29 => "F29".data
  | .F30 => "F30".data
  | .F31 => "F31".data
  | .F32 => "F32".data
  | .F33 => "F33".data
  | .F34 => "F34".data
  | .F35 => "F35".data
  | .Unidentified => "Unidentified".data
  | .Ignored => "Ignored".data

/-- `Display for Mods`: walk the five flags in the fixed canonical order,
writing `+` between the names of the set ones (the `Bool` in the accumulator
is the `first` flag of the source loop). -/
def formatMods (m : Mods) : Str :=
  (([(Mods.CTRL, "Ctrl"), (Mods.CMD, "Cmd"), (Mods.ALT, "Alt"),
     (Mods.WIN, "Win"), (Mods.SHIFT, "Shift")].foldl
    (fun (acc : Str × Bool) (p : Mods × String) =>
      if m.contains p.1 then
        (acc.1 ++ (if acc.2 then ([] : Str) else ['+']) ++ p.2.data, false)
      else acc)
    (([] : Str), true))).1

/-- `Display for KeyInput`: `mods+key` when some modifier is set, else just
the key. -/
def formatKeyInput (i : KeyInput) : Str :=
  (if i.mods ≠ Mods.NONE then formatMods i.mods ++ ['+'] else []) ++ formatKey i.key

/-- `Display for KeySeq`: the inputs joined by single spaces. -/
def formatKeySeq (q : KeySeq) : Str :=
  match q.inputs with
  | [] => []
  | f :: rest => formatKeyInput f ++ (rest.map (fun i => ' ' :: formatKeyInput i)).flatten

/-- `Keybind<A>` from `src/keybind.rs`: a key sequence paired with its
action. -/
structure Keybind (α : Type) where
  seq : KeySeq
  action : α

/-- `Keybinds<A>` from `src/keybind.rs`: the ordered binding table. -/
structure Keybinds (α : Type) where
  list : List (Keybind α)

/-- `Found<A>` from `src/keybind.rs`: the result of `Keybinds::find`.  In
the Rust code the `Keybind` variant borrows the binding; the shallow
embedding carries its value. -/
inductive Found (α : Type) where
  | Keybind (b : Keybind α)
  | Ongoing
  | None

/-- The scan loop of `Keybinds::find`: walk the bindings in registration
order, return the first full match at once, and remember whether some
binding was still a viable prefix. -/
def findLoop {α : Type} (inputs : List KeyInput) :
    List (Keybind α) → Bool → Found α
  | [], sp => if sp then .Ongoing else .None
  | b :: rest, sp =>
    match b.seq.match_to inputs with
    | .Matched => .Keybind b
    | .Prefix => findLoop inputs rest true
    | .Unmatch => findLoop inputs rest sp

/-- `Keybinds::find`. -/
def Keybinds.find {α : Type} (bs : Keybinds α) (inputs : List KeyInput) : Found α :=
  findLoop inputs bs.list false

/-- `Duration::from_secs`, with durations in nanoseconds. -/
def durationFromSecs (n : Nat) : Nat := n * 1000000000

/-- `DEFAULT_TIMEOUT` from `src/keybind.rs`: one second. -/
def DEFAULT_TIMEOUT : Nat := durationFromSecs 1

/-- `KeybindDispatcher<A>` from `src/keybind.rs`: the binding table, the
ongoing input buffer, the time of the last accepted input, and the timeout. -/
structure KeybindDispatcher (α : Type) where
  binds : Keybinds α
  ongoing : List KeyInput
  lastInput : Option Nat
  timeout : Nat

namespace KeybindDispatcher

/-- `KeybindDispatcher::new`. -/
def new {α : Type} (binds : Keybinds α) : KeybindDispatcher α :=
  { binds := binds, ongoing := [], lastInput := none, timeout := DEFAULT_TIMEOUT }

/-- `KeybindDispatcher::reset`. -/
def reset {α : Type} (d : KeybindDispatcher α) : KeybindDispatcher α :=
  { d with ongoing := [], lastInput := none }

/-- `KeybindDispatcher::push`: append the binding, then reset the matching
state. -/
def push {α : Type} (d : KeybindDispatcher α) (b : Keybind α) : KeybindDispatcher α :=
  reset { d with binds := ⟨d.binds.list ++ [b]⟩ }

/-- `KeybindDispatcher::bind`: parse the key sequence and push the binding;
a parse error is returned and the dispatcher is left untouched. -/
def bind {α : Type} (d : KeybindDispatcher α) (s : Str) (a : α) :
    KeybindDispatcher α × Except Error Unit :=
  match parseKeySeq s with
  | .error e => (d, .error e)
  | .ok q => (d.push ⟨q, a⟩, .ok ())

/-- `KeybindDispatcher::handle_timeout`, with `now` passed in for the
`Instant::now()` reading: clear the buffer when the last input is older
than the timeout, then refresh the timer unconditionally. -/
def handle_timeout {α : Type} (now : Nat) (d : KeybindDispatcher α) :
    KeybindDispatcher α :=
  let isTimeout :=
    match d.lastInput with
    | some t => decide (now - t > d.timeout)
    | none => false
  { d with ongoing := if isTimeout then [] else d.ongoing, lastInput := some now }

/-- `KeybindDispatcher::dispatch`, with `now` passed in for the clock
reading.  Returns the new dispatcher state and the dispatched action, if
any. -/
def dispatch {α : Type} (now : Nat) (input : KeyInput) (d : KeybindDispatcher α) :
    KeybindDispatcher α × Option α :=
  if input.key = Key.Ignored then (d, none)
  else
    let d1 := handle_timeout now d
    let d2 := { d1 with ongoing := d1.ongoing ++ [input] }
    match d2.binds.find d2.ongoing with
    | .Keybind b => ({ d2 with ongoing := [], lastInput := none }, some b.action)
    | .Ongoing => (d2, none)
    | .None => ({ d2 with ongoing := [], lastInput := none }, none)

/-- `KeybindDispatcher::set_timeout`. -/
def set_timeout {α : Type} (d : KeybindDispatcher α) (t : Nat) : KeybindDispatcher α :=
  { d with timeout := t }

/-- `KeybindDispatcher::is_ongoing`: only the timer is inspected. -/
def is_ongoing {α : Type} (d : KeybindDispatcher α) : Bool :=
  d.lastInput.isSome

end KeybindDispatcher

/-- `KeySeq::default()` (the derived `Default`): the empty sequence. -/
def KeySeq.default : KeySeq := ⟨[]⟩

/-- `From<I> for KeySeq`: a single input becomes a one-element sequence. -/
def KeySeq.fromInput (i : KeyInput) : KeySeq := ⟨[i]⟩

/-- `From<[I; N]> for KeySeq` and `FromIterator<I> for KeySeq`: collect the
inputs in order. -/
def KeySeq.fromList (l : List KeyInput) : KeySeq := ⟨l⟩

/-! ### Basic facts about the matcher and the binding-table scan -/

/-- Case-shaped equation for `dispatch` on a non-ignored input: append the
input to the (timeout-handled) buffer, look it up, and clear or keep the
buffer and timer according to the result. -/
theorem dispatch_eq {α : Type} (d : KeybindDispatcher α) (now : Nat)
    (input : KeyInput) (h : input.key ≠ Key.Ignored) :
    KeybindDispatcher.dispatch now input d =
      match d.binds.find ((KeybindDispatcher.handle_timeout now d).ongoing ++ [input]) with
      | .Keybind b => (⟨d.binds, [], none, d.timeout⟩, some b.action)
      | .Ongoing =>
        (⟨d.binds, (KeybindDispatcher.handle_timeout now d).ongoing ++ [input],
          some now, d.timeout⟩, none)
      | .None => (⟨d.binds, [], none, d.timeout⟩, none) := by
  unfold KeybindDispatcher.dispatch
  rw [if_neg h]
  cases hf : d.binds.find ((KeybindDispatcher.handle_timeout now d).ongoing ++ [input]) <;>
    simp [KeybindDispatcher.handle_timeout] at hf ⊢ <;> simp [hf]

/-- The buffer/timer coupling invariant of the dispatcher: the ongoing
buffer is empty exactly when the last-input timer is absent. -/
def dispatcherInv {α : Type} (d : KeybindDispatcher α) : Prop :=
  d.ongoing = [] ↔ d.lastInput = none

/-- The scan loop returns a binding exactly when that binding is the first
fully matched one, in the `List.find?` sense. -/
theorem findLoop_eq_keybind {α : Type} (inputs : List KeyInput)
    (bs : List (Keybind α)) (sp : Bool) (b : Keybind α) :
    findLoop inputs bs sp = .Keybind b ↔
      bs.find? (fun x => x.seq.match_to inputs == .Matched) = some b := by
  induction bs generalizing sp with
  | nil => cases sp <;> simp [findLoop]
  | cons hd tl ih =>
    cases hm : hd.seq.match_to inputs <;>
      simp [findLoop, hm, List.find?_cons, ih]

/-- The scan loop reports an ongoing match exactly when nothing fully
matched but a prefix was seen (or was already recorded). -/
theorem findLoop_eq_ongoing {α : Type} (inputs : List KeyInput)
    (bs : List (Keybind α)) (sp : Bool) :
    findLoop inputs bs sp = .Ongoing ↔
      (∀ b ∈ bs, b.seq.match_to inputs ≠ .Matched) ∧
      (sp = true ∨ ∃ b ∈ bs, b.seq.match_to inputs = .Prefix) := by
  induction bs generalizing sp with
  | nil => cases sp <;> simp [findLoop]
  | cons hd tl ih =>
    cases hm : hd.seq.match_to inputs <;>
      simp [findLoop, hm, ih]

/-- The scan loop reports no match exactly when every binding unmatched and
no prefix had been recorded. -/
theorem findLoop_eq_none {α : Type} (inputs : List KeyInput)
    (bs : List (Keybind α)) (sp : Bool) :
    findLoop inputs bs sp = .None ↔
      sp = false ∧ ∀ b ∈ bs, b.seq.match_to inputs = .Unmatch := by
  induction bs generalizing sp with
  | nil => cases sp <;> simp [findLoop]
  | cons hd tl ih =>
    cases hm : hd.seq.match_to inputs <;>
      simp [findLoop, hm, ih]

/-- A differing position within the common range forces `Unmatch`. -/
theorem matchToList_ne_pos (l c : List KeyInput) (i : Nat)
    (h1 : i < l.length) (h2 : i < c.length)
    (hne : l.get ⟨i, h1⟩ ≠ c.get ⟨i, h2⟩) : matchToList l c = .Unmatch := by
  induction l generalizing c i with
  | nil => cases h1
  | cons a l' ih =>
    cases c with
    | nil => cases h2
    | cons b c' =>
      by_cases hab : a = b
      · cases i with
        | zero => exact absurd hab hne
        | succ j =>
          rw [matchToList, if_neg (by simpa using hab)]
          exact ih c' j (by simpa using h1) (by simpa using h2) (by simpa using hne)
      · rw [matchToList, if_pos (by simpa using hab)]

/-- Matching a list against itself yields `Matched`. -/
theorem matchToList_self (l : List KeyInput) : matchToList l l = .Matched := by
  induction l with
  | nil => rfl
  | cons a l' ih => rw [matchToList, if_neg (by simp)]; exact ih

/-- A strictly shorter consistent candidate yields `Prefix`. -/
theorem matchToList_proper_pre (l c : List KeyInput)
    (hlen : c.length < l.length) (htake : l.take c.length = c) :
    matchToList l c = .Prefix := by
  induction c generalizing l with
  | nil =>
    cases l with
    | nil => cases hlen
    | cons a l' => rfl
  | cons b c' ih =>
    cases l with
    | nil => cases hlen
    | cons a l' =>
      simp only [List.take, List.cons.injEq] at htake
      rw [matchToList, if_neg (by simp [htake.1])]
      exact ih l' (by simpa using hlen) htake.2

/-- A candidate that strictly extends the stored sequence yields `Unmatch`. -/
theorem matchToList_longer (l c : List KeyInput)
    (hlen : l.length < c.length) (htake : c.take l.length = l) :
    matchToList l c = .Unmatch := by
  induction l generalizing c with
  | nil =>
    cases c with
    | nil => cases hlen
    | cons b c' => rfl
  | cons a l' ih =>
    cases c with
    | nil => cases hlen
    | cons b c' =>
      simp only [List.take, List.cons.injEq] at htake
      rw [matchToList, if_neg (by simp [htake.1])]
      exact ih c' (by simpa using hlen) htake.2

/-! ### Facts about the token parsers and printers -/

/-- `is_named` on a character key, as a boolean equation. -/
theorem isNamed_Char (c : Char) :
    (Key.Char c).isNamed = (c == ' ' || c == '+') := by
  rw [Key.isNamed.eq_def]
  split
  all_goals simp_all

/-- One modifier piece followed by a non-empty rest: the piece is parsed and
OR-combined. -/
theorem parseKeyInputLoop_cons (m mt : Mods) (t : Str) (ts : List Str)
    (hts : ts ≠ []) (hp : parseMods t = .ok mt) :
    parseKeyInputLoop m (t :: ts) = parseKeyInputLoop (m.or mt) ts := by
  cases ts with
  | nil => exact absurd rfl hts
  | cons r rs => simp [parseKeyInputLoop, hp]

/-- All leading modifier pieces are folded into the accumulator. -/
theorem parseKeyInputLoop_mods (names : List Str) (ms : List Mods)
    (h : List.Forall₂ (fun n mm => parseMods n = .ok mm) names ms) :
    ∀ (m : Mods) (kt : Str),
      parseKeyInputLoop m (names ++ [kt]) =
        parseKeyInputLoop (ms.foldl Mods.or m) [kt] := by
  induction h with
  | nil => intro m kt; rfl
  | cons hp htl ih =>
    intro m kt
    rw [List.cons_append, parseKeyInputLoop_cons _ _ _ _ (by simp) hp]
    exact ih _ kt

/-- The last piece: parse the key and apply the Shift restriction. -/
theorem parseKeyInputLoop_last (m : Mods) (kt : Str) (k : Key)
    (hk : parseKey kt = .ok k) :
    parseKeyInputLoop m [kt] =
      if m.shift && !k.isNamed then .error (.ShiftUnavailable k)
      else .ok ⟨k, m⟩ := by
  simp [parseKeyInputLoop, hk]

/-- Characters that can appear as a `Char` key produced by the parser: the
two specially named ones, or an ordinary character that is neither ASCII
whitespace nor the separator `'+'`. -/
def wfChar (c : Char) : Prop :=
  c = ' ' ∨ c = '+' ∨ (isAsciiWs c = false ∧ c ≠ '+')

/-- Keys producible by the parser: a constrained character key, or a named
key other than the two sentinels (which the parser never returns). -/
def wfKey (k : Key) : Prop :=
  (∀ c, k = .Char c → wfChar c) ∧ k ≠ .Unidentified ∧ k ≠ .Ignored

/-- Key inputs producible by the parser: a producible key, and `Shift` only
together with a named key. -/
def wfInput (i : KeyInput) : Prop :=
  wfKey i.key ∧ (i.mods.shift = true → i.key.isNamed = true)

theorem dropWhile_head_not {p : Char → Bool} {l : Str} {c : Char} {rest : Str}
    (h : l.dropWhile p = c :: rest) : p c = false := by
  induction l with
  | nil => cases h
  | cons a t ih =>
    rw [List.dropWhile_cons] at h
    by_cases ha : p a
    · rw [if_pos ha] at h
      exact ih h
    · rw [if_neg ha] at h
      cases h
      exact Bool.eq_false_iff.mpr ha

theorem trimAscii_single {s : Str} {c : Char} (h : trimAscii s = [c]) :
    isAsciiWs c = false := by
  rw [trimAscii] at h
  have h2 : (s.dropWhile isAsciiWs).reverse.dropWhile isAsciiWs = [c] := by
    have := congrArg List.reverse h
    simpa using this
  exact dropWhile_head_not h2

theorem dropWhile_eq_self_of {p : Char → Bool} {l : Str}
    (h : ∀ c ∈ l, p c = false) : l.dropWhile p = l := by
  cases l with
  | nil => rfl
  | cons a t =>
    rw [List.dropWhile_cons, if_neg]
    simp [h a (by simp)]

theorem trimAscii_eq_self {s : Str} (h : ∀ c ∈ s, isAsciiWs c = false) :
    trimAscii s = s := by
  rw [trimAscii, dropWhile_eq_self_of h, dropWhile_eq_self_of (by simpa using h),
    List.reverse_reverse]

/-- Decidable form of `wfKey`. -/
def wfKeyB (k : Key) : Bool :=
  match k with
  | .Char c => c == ' ' || c == '+' || (!isAsciiWs c && c != '+')
  | .Unidentified => false
  | .Ignored => false
  | _ => true

theorem wfKey_of_B {k : Key} (h : wfKeyB k = true) : wfKey k := by
  cases k
  case Char c =>
    refine ⟨?_, by simp, by simp⟩
    intro c' hc
    cases hc
    simp only [wfKeyB, Bool.or_eq_true, Bool.and_eq_true, beq_iff_eq,
      Bool.not_eq_true', bne_iff_ne] at h
    rcases h with (h | h) | h
    · exact Or.inl h
    · exact Or.inr (Or.inl h)
    · exact Or.inr (Or.inr h)
  case Unidentified => cases h
  case Ignored => cases h
  all_goals refine ⟨fun c hc => ?_, by simp, by simp⟩
  all_goals cases hc

theorem namedKeyTable_wf : namedKeyTable.all (fun e => wfKeyB e.2) = true := by
  rfl

theorem parseKey_wf {t : Str} {k : Key} (h : parseKey t = .ok k) : wfKey k := by
  rw [parseKey] at h
  split at h
  · next c heq =>
    cases h
    refine ⟨?_, by simp, by simp⟩
    intro c2 hc
    have hcc : c = c2 := by injection hc
    subst hcc
    by_cases hp : c = '+'
    · exact Or.inr (Or.inl hp)
    · exact Or.inr (Or.inr ⟨trimAscii_single heq, hp⟩)
  · next heq =>
    split at h
    · next e hfind =>
      cases h
      have hmem := List.mem_of_find?_eq_some hfind
      have := List.all_eq_true.mp namedKeyTable_wf e hmem
      exact wfKey_of_B this
    · split at h <;> cases h

/-- `formatKey` on an unnamed ordinary character. -/
theorem formatKey_Char {c : Char} (h1 : c ≠ ' ') (h2 : c ≠ '+') :
    formatKey (.Char c) = [c] := by
  rw [formatKey.eq_def]
  split <;> simp_all

/-- Every parser-producible key reparses from its canonical spelling. -/
theorem parseKey_formatKey {k : Key} (h : wfKey k) :
    parseKey (formatKey k) = .ok k := by
  cases k with
  | Char c =>
    rcases h.1 c rfl with hc | hc | ⟨hws, hplus⟩
    · subst hc; rfl
    · subst hc; rfl
    · by_cases hsp : c = ' '
      · subst hsp; rfl
      · rw [formatKey_Char hsp hplus, parseKey,
          trimAscii_eq_self (by intro x hx; simp at hx; subst hx; exact hws)]
  | Up => rfl
  | Right => rfl
  | Down => rfl
  | Left => rfl
  | Enter => rfl
  | Backspace => rfl
  | Delete => rfl
  | Home => rfl
  | End => rfl
  | PageUp => rfl
  | PageDown => rfl
  | Esc => rfl
  | Tab => rfl
  | Backtab => rfl
  | Insert => rfl
  | Copy => rfl
  | Cut => rfl
  | Paste => rfl
  | Clear => rfl
  | Undo => rfl
  | Redo => rfl
  | ZoomIn => rfl
  | ZoomOut => rfl
  | ScrollLock => rfl
  | NumLock => rfl
  | FnLock => rfl
  | PrintScreen => rfl
  | Menu => rfl
  | Play => rfl
  | Pause => rfl
  | PlayPause => rfl
  | Stop => rfl
  | Rewind => rfl
  | NextTrack => rfl
  | PrevTrack => rfl
  | VolumeUp => rfl
  | VolumeDown => rfl
  | Mute => rfl
  | F1 => rfl
  | F2 => rfl
  | F3 => rfl
  | F4 => rfl
  | F5 => rfl
  | F6 => rfl
  | F7 => rfl
  | F8 => rfl
  | F9 => rfl
  | F10 => rfl
  | F11 => rfl
  | F12 => rfl
  | F13 => rfl
  | F14 => rfl
  | F15 => rfl
  | F16 => rfl
  | F17 => rfl
  | F18 => rfl
  | F19 => rfl
  | F20 => rfl
  | F21 => rfl
  | F22 => rfl
  | F23 => rfl
  | F24 => rfl
  | F25 => rfl
  | F26 => rfl
  | F27 => rfl
  | F28 => rfl
  | F29 => rfl
  | F30 => rfl
  | F31 => rfl
  | F32 => rfl
  | F33 => rfl
  | F34 => rfl
  | F35 => rfl
  | Unidentified => exact absurd rfl h.2.1
  | Ignored => exact absurd rfl h.2.2

/-- The canonical spelling of a producible key is a non-empty token without
whitespace or `'+'`. -/
theorem formatKey_props {k : Key} (h : wfKey k) :
    formatKey k ≠ [] ∧ ∀ c ∈ formatKey k, isAsciiWs c = false ∧ c ≠ '+' := by
  cases k
  case Char c =>
    rcases h.1 c rfl with hc | hc | ⟨hws, hplus⟩
    · subst hc; decide
    · subst hc; decide
    · have hsp : c ≠ ' ' := by
        intro he
        subst he
        simp [isAsciiWs] at hws
      rw [formatKey_Char hsp hplus]
      refine ⟨by simp, ?_⟩
      intro x hx
      simp only [List.mem_singleton] at hx
      subst hx
      exact ⟨hws, hplus⟩
  all_goals decide

/-- The canonically ordered names of the set modifier flags, as written by
`Display for Mods`. -/
def modNames (m : Mods) : List Str :=
  (if m.ctrl then ["Ctrl".data] else []) ++ (if m.cmd then ["Cmd".data] else []) ++
  (if m.alt then ["Alt".data] else []) ++ (if m.win then ["Win".data] else []) ++
  (if m.shift then ["Shift".data] else [])

/-- The set modifier flags, as singleton modifier sets in canonical order. -/
def modFlags (m : Mods) : List Mods :=
  (if m.ctrl then [Mods.CTRL] else []) ++ (if m.cmd then [Mods.CMD] else []) ++
  (if m.alt then [Mods.ALT] else []) ++ (if m.win then [Mods.WIN] else []) ++
  (if m.shift then [Mods.SHIFT] else [])

theorem formatMods_eq (m : Mods) :
    formatMods m = List.intercalate ['+'] (modNames m) := by
  obtain ⟨c, cm, a, w, s⟩ := m
  cases c <;> cases cm <;> cases a <;> cases w <;> cases s <;> rfl

/-- Every written modifier name parses back to its flag — provided the `Win`
flag is absent, since `Mods::from_str` accepts no `"Win"` spelling. -/
theorem modNames_forall₂ (m : Mods) (hw : m.win = false) :
    List.Forall₂ (fun n mm => parseMods n = .ok mm) (modNames m) (modFlags m) := by
  obtain ⟨c, cm, a, w, s⟩ := m
  cases hw
  cases c <;> cases cm <;> cases a <;> cases s <;>
    (repeat' constructor)

theorem modFlags_foldl (m : Mods) :
    (modFlags m).foldl Mods.or Mods.NONE = m := by
  obtain ⟨c, cm, a, w, s⟩ := m
  cases c <;> cases cm <;> cases a <;> cases w <;> cases s <;> rfl

theorem modNames_props (m : Mods) :
    (m ≠ Mods.NONE → modNames m ≠ []) ∧
    ∀ t ∈ modNames m, t ≠ [] ∧ ∀ c ∈ t, isAsciiWs c = false ∧ c ≠ '+' := by
  obtain ⟨c, cm, a, w, s⟩ := m
  cases c <;> cases cm <;> cases a <;> cases w <;> cases s <;> decide

theorem intercalate_cons_two (sep a b : Str) (l : List Str) :
    List.intercalate sep (a :: b :: l) = a ++ sep ++ List.intercalate sep (b :: l) := by
  simp [List.intercalate, List.intersperse_cons_cons]

theorem intercalate_single (sep a : Str) : List.intercalate sep [a] = a := by
  simp [List.intercalate]

theorem intercalate_append_sing (sep : Str) (ls : List Str) (x : Str) (h : ls ≠ []) :
    List.intercalate sep (ls ++ [x]) = List.intercalate sep ls ++ sep ++ x := by
  induction ls with
  | nil => exact absurd rfl h
  | cons a tl ih =>
    cases tl with
    | nil =>
      rw [intercalate_single]
      simpa [intercalate_single] using intercalate_cons_two sep a x []
    | cons b tl2 =>
      have ih2 := ih (by simp)
      simp only [List.cons_append] at ih2 ⊢
      rw [intercalate_cons_two, intercalate_cons_two, ih2]
      simp [List.append_assoc]

theorem forall_mem_intercalate {p : Char → Prop} (sep : Str) (ls : List Str)
    (hsep : ∀ c ∈ sep, p c) (hls : ∀ t ∈ ls, ∀ c ∈ t, p c) :
    ∀ c ∈ List.intercalate sep ls, p c := by
  induction ls with
  | nil => simp [List.intercalate]
  | cons a tl ih =>
    cases tl with
    | nil =>
      rw [intercalate_single]
      exact hls a (by simp)
    | cons b tl2 =>
      rw [intercalate_cons_two]
      intro c hc
      rcases List.mem_append.mp hc with hc2 | hc2
      · rcases List.mem_append.mp hc2 with hc3 | hc3
        · exact hls a (by simp) c hc3
        · exact hsep c hc3
      · exact ih (fun t ht => hls t (List.mem_cons_of_mem a ht)) c hc2

theorem formatKeyInput_eq {i : KeyInput} (h : i.mods ≠ Mods.NONE) :
    formatKeyInput i =
      List.intercalate ['+'] (modNames i.mods ++ [formatKey i.key]) := by
  rw [formatKeyInput, if_pos h, formatMods_eq,
    intercalate_append_sing _ _ _ ((modNames_props i.mods).1 h)]

theorem splitOn_not_mem {l : Str} (h : ∀ c ∈ l, c ≠ '+') :
    l.splitOn '+' = [l] := by
  rw [List.splitOn]
  exact List.splitOnP_eq_single _ _ (fun x hx => by simp [h x hx])

/-- Round trip of one key input through its canonical string, provided the
`Win` flag is absent. -/
theorem parseKeyInput_formatKeyInput {i : KeyInput} (h : wfInput i)
    (hwin : i.mods.win = false) :
    parseKeyInput (formatKeyInput i) = .ok i := by
  obtain ⟨hk, hshift⟩ := h
  obtain ⟨fk_ne, fk_props⟩ := formatKey_props hk
  have hguard : (i.mods.shift && !i.key.isNamed) = false := by
    cases hs : i.mods.shift
    · rfl
    · rw [hshift hs]
      rfl
  by_cases hm : i.mods = Mods.NONE
  · rw [formatKeyInput, if_neg (by simp [hm]), List.nil_append, parseKeyInput,
      trimAscii_eq_self (fun c hc => (fk_props c hc).1),
      splitOn_not_mem (fun c hc => (fk_props c hc).2),
      parseKeyInputLoop_last _ _ _ (parseKey_formatKey hk)]
    rw [hm] at hguard
    rw [hguard]
    simp [← hm]
  · rw [formatKeyInput_eq hm, parseKeyInput]
    have htoks : ∀ c ∈ List.intercalate ['+'] (modNames i.mods ++ [formatKey i.key]),
        isAsciiWs c = false := by
      refine forall_mem_intercalate _ _ (by decide) ?_
      intro t ht
      rcases List.mem_append.mp ht with ht2 | ht2
      · exact fun c hc => (((modNames_props i.mods).2 t ht2).2 c hc).1
      · rw [List.mem_singleton] at ht2
        subst ht2
        exact fun c hc => (fk_props c hc).1
    rw [trimAscii_eq_self htoks]
    have hsplit : (List.intercalate ['+'] (modNames i.mods ++ [formatKey i.key])).splitOn '+'
        = modNames i.mods ++ [formatKey i.key] := by
      refine List.splitOn_intercalate (modNames i.mods ++ [formatKey i.key]) '+' ?_ (by simp)
      intro l hl
      rcases List.mem_append.mp hl with hl2 | hl2
      · intro hmem
        exact (((modNames_props i.mods).2 l hl2).2 '+' hmem).2 rfl
      · rw [List.mem_singleton] at hl2
        subst hl2
        intro hmem
        exact (fk_props '+' hmem).2 rfl
    rw [hsplit, parseKeyInputLoop_mods _ _ (modNames_forall₂ i.mods hwin),
      modFlags_foldl, parseKeyInputLoop_last _ _ _ (parseKey_formatKey hk), hguard]
    simp

/-- The canonical string of a producible input is a non-empty token without
ASCII whitespace. -/
theorem formatKeyInput_props {i : KeyInput} (h : wfInput i) :
    formatKeyInput i ≠ [] ∧ ∀ c ∈ formatKeyInput i, isAsciiWs c = false := by
  obtain ⟨hk, _⟩ := h
  obtain ⟨fk_ne, fk_props⟩ := formatKey_props hk
  by_cases hm : i.mods = Mods.NONE
  · rw [formatKeyInput, if_neg (by simp [hm]), List.nil_append]
    exact ⟨fk_ne, fun c hc => (fk_props c hc).1⟩
  · constructor
    · rw [formatKeyInput, if_pos hm]
      simp [fk_ne]
    · rw [formatKeyInput_eq hm]
      refine forall_mem_intercalate _ _ (by decide) ?_
      intro t ht
      rcases List.mem_append.mp ht with ht2 | ht2
      · exact fun c hc => (((modNames_props i.mods).2 t ht2).2 c hc).1
      · rw [List.mem_singleton] at ht2
        subst ht2
        exact fun c hc => (fk_props c hc).1

/-- Whatever the input-parsing loop accepts satisfies the producibility
conditions. -/
theorem parseKeyInputLoop_wf :
    ∀ (ps : List Str) (m : Mods) (i : KeyInput),
      parseKeyInputLoop m ps = .ok i →
      wfKey i.key ∧ (i.mods.shift = true → i.key.isNamed = true) := by
  intro ps
  induction ps with
  | nil => intro m i h; cases h
  | cons t ts ih =>
    intro m i h
    cases ts with
    | nil =>
      cases hk : parseKey t with
      | error e => simp [parseKeyInputLoop, hk] at h
      | ok k =>
        simp only [parseKeyInputLoop, hk] at h
        by_cases hg : (m.shift && !k.isNamed) = true
        · rw [if_pos hg] at h
          cases h
        · rw [if_neg hg] at h
          cases h
          refine ⟨parseKey_wf hk, ?_⟩
          intro hs
          simp only at hs
          rw [hs] at hg
          simpa using hg
    | cons t2 ts2 =>
      cases hm : parseMods t with
      | error e => simp [parseKeyInputLoop, hm] at h
      | ok mt =>
        simp only [parseKeyInputLoop, hm] at h
        exact ih (m.or mt) i h

theorem parseKeyInput_wf {t : Str} {i : KeyInput} (h : parseKeyInput t = .ok i) :
    wfInput i :=
  parseKeyInputLoop_wf _ _ _ h

/-! ### Sequence-level round-trip machinery -/

theorem splitOnP_intercalate_ws (toks : List Str) (h : toks ≠ [])
    (hp : ∀ t ∈ toks, ∀ c ∈ t, isAsciiWs c = false) :
    (List.intercalate [' '] toks).splitOnP isAsciiWs = toks := by
  induction toks with
  | nil => exact absurd rfl h
  | cons a tl ih =>
    cases tl with
    | nil =>
      rw [intercalate_single]
      exact List.splitOnP_eq_single _ _
        (fun x hx => by simp [hp a (by simp) x hx])
    | cons b tl2 =>
      rw [intercalate_cons_two, List.append_assoc, List.singleton_append,
        List.splitOnP_first _ _ (fun x hx => by simp [hp a (by simp) x hx]) ' ' rfl,
        ih (by simp) (fun t ht => hp t (List.mem_cons_of_mem a ht))]

theorem splitAW_intercalate (toks : List Str) (h : toks ≠ [])
    (hne : ∀ t ∈ toks, t ≠ []) (hp : ∀ t ∈ toks, ∀ c ∈ t, isAsciiWs c = false) :
    splitAsciiWhitespace (List.intercalate [' '] toks) = toks := by
  rw [splitAsciiWhitespace, splitOnP_intercalate_ws toks h hp]
  rw [List.filter_eq_self]
  intro t ht
  simp [hne t ht]

theorem formatKeySeq_aux (rest : List KeyInput) (f : KeyInput) :
    formatKeyInput f ++ (rest.map (fun i => ' ' :: formatKeyInput i)).flatten =
      List.intercalate [' '] (formatKeyInput f :: rest.map formatKeyInput) := by
  induction rest generalizing f with
  | nil => simp [intercalate_single]
  | cons g tl ih =>
    rw [List.map_cons (fun i => ' ' :: formatKeyInput i) g tl, List.flatten_cons,
      List.map_cons formatKeyInput g tl, intercalate_cons_two, ← ih g]
    simp [List.append_assoc]

theorem formatKeySeq_eq (q : KeySeq) :
    formatKeySeq q = List.intercalate [' '] (q.inputs.map formatKeyInput) := by
  rw [formatKeySeq]
  cases hq : q.inputs with
  | nil => simp [List.intercalate]
  | cons f rest => exact formatKeySeq_aux rest f

theorem parseInputs_map_format (is : List KeyInput)
    (hwf : ∀ i ∈ is, wfInput i) (hwin : ∀ i ∈ is, i.mods.win = false) :
    parseInputs (is.map formatKeyInput) = .ok is := by
  induction is with
  | nil => rfl
  | cons i tl ih =>
    rw [List.map_cons, parseInputs,
      parseKeyInput_formatKeyInput (hwf i (by simp)) (hwin i (by simp)),
      ih (fun j hj => hwf j (List.mem_cons_of_mem i hj))
        (fun j hj => hwin j (List.mem_cons_of_mem i hj))]

theorem parseInputs_wf :
    ∀ (ts : List Str) (is : List KeyInput), parseInputs ts = .ok is →
      ∀ i ∈ is, wfInput i := by
  intro ts
  induction ts with
  | nil =>
    intro is h
    cases h
    simp
  | cons t tl ih =>
    intro is h
    rw [parseInputs] at h
    cases hk : parseKeyInput t with
    | error e => rw [hk] at h; cases h
    | ok i =>
      rw [hk] at h
      cases hr : parseInputs tl with
      | error e => rw [hr] at h; cases h
      | ok is2 =>
        rw [hr] at h
        cases h
        intro j hj
        rcases List.mem_cons.mp hj with hj2 | hj2
        · subst hj2
          exact parseKeyInput_wf hk
        · exact ih is2 hr j hj2

/-! ### Sample values used by the witness theorems -/

/-- The input `'a'` with no modifiers. -/
def inputA : KeyInput := ⟨.Char 'a', Mods.NONE⟩

/-- A sample binding `"a" → 7`. -/
def sampleBindA : Keybind Nat := ⟨⟨[inputA]⟩, 7⟩

/-- A freshly created dispatcher holding only `sampleBindA`. -/
def sampleDispatcher : KeybindDispatcher Nat :=
  ⟨⟨[sampleBindA]⟩, [], none, DEFAULT_TIMEOUT⟩

/-! ### The claims -/

/-- C1: dispatching a non-ignored input appends it to the (timeout-handled)
ongoing buffer, queries the binding table with the full buffer, and then: a
full match clears the buffer and the timer and returns the matched binding's
action; an ongoing prefix leaves the buffer and timer exactly as set by this
call and returns no action; no match clears the buffer and the timer and
returns no action.  The equation is total, so dispatch never fails. -/
theorem C1_dispatch_step {α : Type} (d : KeybindDispatcher α) (now : Nat)
    (input : KeyInput) (h : input.key ≠ Key.Ignored) :
    KeybindDispatcher.dispatch now input d =
      match d.binds.find ((KeybindDispatcher.handle_timeout now d).ongoing ++ [input]) with
      | .Keybind b => (⟨d.binds, [], none, d.timeout⟩, some b.action)
      | .Ongoing =>
        (⟨d.binds, (KeybindDispatcher.handle_timeout now d).ongoing ++ [input],
          some now, d.timeout⟩, none)
      | .None => (⟨d.binds, [], none, d.timeout⟩, none) :=
  dispatch_eq d now input h

/-- Witness for C1 at a concrete dispatcher: dispatching `'a'` against the
one-binding table fires the action and resets the state. -/
theorem C1_dispatch_step_witness :
    inputA.key ≠ Key.Ignored ∧
    KeybindDispatcher.dispatch 0 inputA sampleDispatcher =
      (⟨⟨[sampleBindA]⟩, [], none, DEFAULT_TIMEOUT⟩, some 7) :=
  ⟨by decide, C1_dispatch_step sampleDispatcher 0 inputA (by decide)⟩

/-- C2: `Keybinds::find` returns a binding exactly when it is the first
registered binding whose sequence fully matches the inputs (no further
scanning); it is ongoing exactly when nothing fully matched but some binding
is a viable prefix; it is `None` exactly when every binding unmatched; and a
fully matched binding always wins over prefix-only bindings regardless of
registration order. -/
theorem C2_find_first_match {α : Type} (bs : Keybinds α) (inputs : List KeyInput)
    (hne : inputs ≠ []) :
    (∀ b : Keybind α, bs.find inputs = .Keybind b ↔
      (b.seq.match_to inputs = .Matched ∧
        ∃ l1 l2, bs.list = l1 ++ b :: l2 ∧
          ∀ b' ∈ l1, b'.seq.match_to inputs ≠ .Matched)) ∧
    (bs.find inputs = .Ongoing ↔
      ((∀ b ∈ bs.list, b.seq.match_to inputs ≠ .Matched) ∧
        ∃ b ∈ bs.list, b.seq.match_to inputs = .Prefix)) ∧
    (bs.find inputs = .None ↔
      ∀ b ∈ bs.list, b.seq.match_to inputs = .Unmatch) ∧
    (∀ b ∈ bs.list, b.seq.match_to inputs = .Matched →
      ∃ b', bs.find inputs = .Keybind b' ∧ b'.seq.match_to inputs = .Matched) := by
  have hk := fun b => findLoop_eq_keybind inputs bs.list false b
  have ho := findLoop_eq_ongoing inputs bs.list false
  have hn := findLoop_eq_none inputs bs.list false
  refine ⟨?_, ?_, ?_, ?_⟩
  · intro b
    rw [Keybinds.find, hk, List.find?_eq_some]
    simp
  · rw [Keybinds.find, ho]
    simp
  · rw [Keybinds.find, hn]
    simp
  · intro b hb hm
    rcases hfind : bs.find inputs with b' | _ | _
    · refine ⟨b', rfl, ?_⟩
      have := (hk b').mp hfind
      rcases List.find?_eq_some.mp this with ⟨hp, -⟩
      simpa using hp
    · rcases ho.mp hfind with ⟨hall, -⟩
      exact absurd hm (hall b hb)
    · have := (hn.mp hfind).2 b hb
      rw [hm] at this
      cases this

/-- Witness for C2 at a concrete table and input. -/
theorem C2_find_first_match_witness :
    [inputA] ≠ ([] : List KeyInput) ∧
    (Keybinds.find ⟨[sampleBindA]⟩ [inputA] = .None ↔
      ∀ b ∈ [sampleBindA], b.seq.match_to [inputA] = .Unmatch) :=
  ⟨by decide, (C2_find_first_match ⟨[sampleBindA]⟩ [inputA] (by decide)).2.2.1⟩

/-- C3: `KeySeq::match_to` returns `Unmatch` when some common position
differs, `Matched` when the candidate equals the stored inputs, `Prefix`
when the candidate is a proper prefix of the stored inputs, and `Unmatch`
when the stored inputs are a proper prefix of the candidate. -/
theorem C3_match_to_cases (s : KeySeq) (c : List KeyInput) :
    ((∃ i, ∃ h1 : i < s.inputs.length, ∃ h2 : i < c.length,
        s.inputs.get ⟨i, h1⟩ ≠ c.get ⟨i, h2⟩) → s.match_to c = .Unmatch) ∧
    (s.inputs = c → s.match_to c = .Matched) ∧
    (c.length < s.inputs.length → s.inputs.take c.length = c → s.match_to c = .Prefix) ∧
    (s.inputs.length < c.length → c.take s.inputs.length = s.inputs → s.match_to c = .Unmatch) := by
  refine ⟨?_, ?_, ?_, ?_⟩
  · rintro ⟨i, h1, h2, hne⟩
    exact matchToList_ne_pos s.inputs c i h1 h2 hne
  · intro h
    rw [KeySeq.match_to, h]
    exact matchToList_self c
  · exact fun hl ht => matchToList_proper_pre s.inputs c hl ht
  · exact fun hl ht => matchToList_longer s.inputs c hl ht

/-- Witness for C3: a sequence fully matches its own input list. -/
theorem C3_match_to_cases_witness :
    KeySeq.match_to ⟨[inputA]⟩ [inputA] = .Matched :=
  (C3_match_to_cases ⟨[inputA]⟩ [inputA]).2.1 rfl

/-- C4: when the timer is set and the elapsed time strictly exceeds the
configured timeout, dispatching behaves exactly as if the buffer had been
cleared and the timer dropped beforehand; `handle_timeout` always refreshes
the timer to `now`, clears the buffer exactly on expiry, and keeps it
otherwise; the default timeout is one second; and `set_timeout` changes the
threshold used by subsequent dispatch calls. -/
theorem C4_timeout_behavior {α : Type} (d : KeybindDispatcher α) (now t dur : Nat)
    (input : KeyInput) :
    (input.key ≠ Key.Ignored → d.lastInput = some t → now - t > d.timeout →
      KeybindDispatcher.dispatch now input d =
        KeybindDispatcher.dispatch now input { d with ongoing := [], lastInput := none }) ∧
    (KeybindDispatcher.handle_timeout now d).lastInput = some now ∧
    (d.lastInput = some t → now - t > d.timeout →
      (KeybindDispatcher.handle_timeout now d).ongoing = []) ∧
    (d.lastInput = some t → ¬(now - t > d.timeout) →
      (KeybindDispatcher.handle_timeout now d).ongoing = d.ongoing) ∧
    (d.lastInput = none → (KeybindDispatcher.handle_timeout now d).ongoing = d.ongoing) ∧
    DEFAULT_TIMEOUT = durationFromSecs 1 ∧
    (d.set_timeout dur).timeout = dur ∧
    KeybindDispatcher.dispatch now input (d.set_timeout dur) =
      KeybindDispatcher.dispatch now input { d with timeout := dur } := by
  refine ⟨?_, ?_, ?_, ?_, ?_, rfl, rfl, rfl⟩
  · intro hi hl ht
    have : KeybindDispatcher.handle_timeout now d =
        KeybindDispatcher.handle_timeout now { d with ongoing := [], lastInput := none } := by
      simp [KeybindDispatcher.handle_timeout, hl, ht]
    rw [KeybindDispatcher.dispatch, KeybindDispatcher.dispatch, if_neg hi, if_neg hi, this]
  · simp [KeybindDispatcher.handle_timeout]
  · intro hl ht
    simp [KeybindDispatcher.handle_timeout, hl, ht]
  · intro hl ht
    simp [KeybindDispatcher.handle_timeout, hl, ht]
  · intro hl
    simp [KeybindDispatcher.handle_timeout, hl]

/-- Witness for C4: an input two seconds after the previous one abandons the
stale buffer — dispatch behaves as from the reset state. -/
theorem C4_timeout_behavior_witness :
    KeybindDispatcher.dispatch 2000000000 inputA
        ⟨⟨[sampleBindA]⟩, [inputA], some 0, DEFAULT_TIMEOUT⟩ =
      KeybindDispatcher.dispatch 2000000000 inputA
        ⟨⟨[sampleBindA]⟩, [], none, DEFAULT_TIMEOUT⟩ :=
  (C4_timeout_behavior ⟨⟨[sampleBindA]⟩, [inputA], some 0, DEFAULT_TIMEOUT⟩
    2000000000 0 5 inputA).1 (by decide) rfl (by decide)

/-- C5: `KeyInput::new` keeps the key and drops the Shift bit exactly when
the key is not named; a key is named exactly when it is the space or plus
character key or any non-character variant other than the two sentinels; and
string parsing of a key input OR-combines the leading modifier pieces, then
fails with `ShiftUnavailable` exactly when the combined modifiers contain
Shift and the parsed key is not named, and otherwise returns the key with
the combined modifiers unmodified. -/
theorem C5_shift_rules (k k2 : Key) (m : Mods) (s : Str)
    (names : List Str) (kt : Str) (ms : List Mods) :
    ((KeyInput.new k m).key = k ∧
      (KeyInput.new k m).mods = (if k.isNamed then m else m.removeShift)) ∧
    (k.isNamed = true ↔
      (k = .Char ' ' ∨ k = .Char '+' ∨
        ((∀ c, k ≠ .Char c) ∧ k ≠ .Ignored ∧ k ≠ .Unidentified))) ∧
    ((trimAscii s).splitOn '+' = names ++ [kt] →
      List.Forall₂ (fun n mm => parseMods n = .ok mm) names ms →
      parseKey kt = .ok k2 →
      parseKeyInput s =
        if (ms.foldl Mods.or Mods.NONE).shift && !k2.isNamed
        then .error (.ShiftUnavailable k2)
        else .ok ⟨k2, ms.foldl Mods.or Mods.NONE⟩) := by
  refine ⟨?_, ?_, ?_⟩
  · by_cases h : k.isNamed <;> simp [KeyInput.new, h]
  · cases k
    case Char c =>
      rw [isNamed_Char]
      simp
    all_goals simp [Key.isNamed]
  · intro hsplit hmods hkey
    rw [parseKeyInput, hsplit, parseKeyInputLoop_mods names ms hmods,
      parseKeyInputLoop_last _ _ _ hkey]

/-- Witness for C5: parsing `"Shift+a"` is rejected, while direct
construction silently drops the Shift bit. -/
theorem C5_shift_rules_witness :
    parseKeyInput "Shift+a".data = .error (.ShiftUnavailable (.Char 'a')) ∧
    (KeyInput.new (.Char 'a') (Mods.SHIFT.or Mods.CTRL)).mods = Mods.CTRL := by
  constructor
  · have h := (C5_shift_rules (.Up) (.Char 'a') Mods.NONE "Shift+a".data
      ["Shift".data] "a".data [Mods.SHIFT]).2.2 (by rfl)
      (List.Forall₂.cons (by rfl) List.Forall₂.nil) (by rfl)
    rw [h]
    rfl
  · have h := ((C5_shift_rules (.Char 'a') (.Up) (Mods.SHIFT.or Mods.CTRL)
      [] [] [] []).1).2
    rw [h]
    rfl

/-- C6 counterexample: the round-trip law fails as stated.  On this
(non-macOS) build `"Super"` parses to the `Win` flag, the formatter renders
that flag as `"Win"`, and `"Win"` is not an accepted modifier spelling, so
reparsing the canonical form fails instead of reproducing the value. -/
theorem C6_roundtrip_counterexample :
    parseKeySeq "Super+a".data = .ok ⟨[⟨.Char 'a', Mods.WIN⟩]⟩ ∧
    formatKeySeq ⟨[⟨.Char 'a', Mods.WIN⟩]⟩ = "Win+a".data ∧
    parseKeySeq "Win+a".data = .error (.UnknownModifier "Win") :=
  ⟨rfl, rfl, rfl⟩

/-- C6 (amended): for every string that parses as a key sequence whose
inputs carry no `Win` modifier bit, rendering the parsed value to its
canonical string and reparsing yields the same value. -/
theorem C6_roundtrip_no_win (s : Str) (q : KeySeq)
    (h : parseKeySeq s = .ok q)
    (hwin : ∀ i ∈ q.inputs, i.mods.win = false) :
    parseKeySeq (formatKeySeq q) = .ok q := by
  rw [parseKeySeq] at h
  rcases hp : parseInputs (splitAsciiWhitespace s) with e | is <;> rw [hp] at h
  · cases h
  · by_cases he : is.isEmpty
    · simp [he] at h
    · simp only [he, Bool.false_eq_true, if_false] at h
      cases h
      have hwf : ∀ i ∈ is, wfInput i := parseInputs_wf _ _ hp
      have hne : is ≠ [] := by simpa using he
      rw [parseKeySeq, formatKeySeq_eq]
      rw [splitAW_intercalate (is.map formatKeyInput) (by simpa using hne)
        (by
          intro t ht
          rcases List.mem_map.mp ht with ⟨i, hi, rfl⟩
          exact (formatKeyInput_props (hwf i hi)).1)
        (by
          intro t ht
          rcases List.mem_map.mp ht with ⟨i, hi, rfl⟩
          exact (formatKeyInput_props (hwf i hi)).2)]
      rw [parseInputs_map_format is hwf hwin]
      simp [he]

/-- Witness for the amended C6: `"Ctrl+x"` parses, formats canonically, and
reparses to the same value. -/
theorem C6_roundtrip_no_win_witness :
    parseKeySeq (formatKeySeq ⟨[⟨.Char 'x', Mods.CTRL⟩]⟩) =
      .ok ⟨[⟨.Char 'x', Mods.CTRL⟩]⟩ :=
  C6_roundtrip_no_win "Ctrl+x".data ⟨[⟨.Char 'x', Mods.CTRL⟩]⟩ rfl (by decide)

/-- C7 counterexample: explicit construction does produce empty sequences —
the derived `Default` and the conversions from an empty array or iterator
all yield a `KeySeq` with no elements. -/
theorem C7_nonempty_counterexample :
    KeySeq.default.inputs = [] ∧ (KeySeq.fromList ([] : List KeyInput)).inputs = [] :=
  ⟨rfl, rfl⟩

/-- C7 (amended): parsing never yields an empty key sequence — emptiness is
the parse error `EmptyKeySequence` — and the single-input conversion yields
one element; but `Default`, `From<[I; N]>` with `N = 0`, and collecting an
empty iterator do construct the empty sequence. -/
theorem C7_parse_nonempty :
    (∀ (s : Str) (q : KeySeq), parseKeySeq s = .ok q → q.inputs ≠ []) ∧
    (∀ i, (KeySeq.fromInput i).inputs = [i]) ∧
    parseKeySeq [] = .error .EmptyKeySequence := by
  refine ⟨?_, fun i => rfl, rfl⟩
  intro s q h
  rw [parseKeySeq] at h
  rcases hp : parseInputs (splitAsciiWhitespace s) with e | is <;> rw [hp] at h
  · cases h
  · by_cases he : is.isEmpty
    · simp [he] at h
    · simp only [he, Bool.false_eq_true, if_false] at h
      cases h
      simpa using he

/-- Witness for the amended C7 at the concrete string `"x"`. -/
theorem C7_parse_nonempty_witness :
    parseKeySeq "x".data = .ok ⟨[⟨.Char 'x', Mods.NONE⟩]⟩ ∧
    (⟨[⟨.Char 'x', Mods.NONE⟩]⟩ : KeySeq).inputs ≠ [] :=
  ⟨rfl, C7_parse_nonempty.1 "x".data ⟨[⟨.Char 'x', Mods.NONE⟩]⟩ rfl⟩

/-- C8: dispatching an input whose key is the `Ignored` sentinel returns no
action and leaves the whole dispatcher state — buffer, timer, timeout and
binding table — exactly unchanged. -/
theorem C8_ignored_transparent {α : Type} (d : KeybindDispatcher α) (now : Nat)
    (input : KeyInput) (h : input.key = Key.Ignored) :
    KeybindDispatcher.dispatch now input d = (d, none) := by
  simp [KeybindDispatcher.dispatch, h]

/-- Witness for C8 at a concrete dispatcher. -/
theorem C8_ignored_transparent_witness :
    KeybindDispatcher.dispatch 5 ⟨Key.Ignored, Mods.NONE⟩ sampleDispatcher =
      (sampleDispatcher, none) :=
  C8_ignored_transparent sampleDispatcher 5 ⟨Key.Ignored, Mods.NONE⟩ rfl

/-- C9: `bind` parses the string; on success it appends the new binding at
the end of the table and resets the matching state, and on a parse error it
returns that error with the dispatcher left exactly unchanged. -/
theorem C9_bind_atomic {α : Type} (d : KeybindDispatcher α) (s : Str) (a : α) :
    (∀ q, parseKeySeq s = .ok q →
      d.bind s a = (⟨⟨d.binds.list ++ [⟨q, a⟩]⟩, [], none, d.timeout⟩, .ok ())) ∧
    (∀ e, parseKeySeq s = .error e → d.bind s a = (d, .error e)) := by
  constructor
  · intro q hq
    simp [KeybindDispatcher.bind, hq, KeybindDispatcher.push, KeybindDispatcher.reset]
  · intro e he
    simp [KeybindDispatcher.bind, he]

/-- Witness for C9: a good binding is appended and the state reset; the
empty string fails and leaves the dispatcher untouched. -/
theorem C9_bind_atomic_witness :
    KeybindDispatcher.bind sampleDispatcher "b".data 9 =
      (⟨⟨[sampleBindA, ⟨⟨[⟨.Char 'b', Mods.NONE⟩]⟩, 9⟩]⟩, [], none, DEFAULT_TIMEOUT⟩,
        .ok ()) ∧
    KeybindDispatcher.bind sampleDispatcher [] 9 =
      (sampleDispatcher, .error .EmptyKeySequence) :=
  ⟨(C9_bind_atomic sampleDispatcher "b".data 9).1 ⟨[⟨.Char 'b', Mods.NONE⟩]⟩ rfl,
   (C9_bind_atomic sampleDispatcher [] 9).2 .EmptyKeySequence rfl⟩

/-- C10: the buffer/timer invariant — the ongoing buffer is empty exactly
when the last-input timer is absent — holds for a new dispatcher and is
preserved by dispatch, push, bind, reset and set_timeout; under it,
`is_ongoing`, which only inspects the timer, is true exactly when the
ongoing buffer is non-empty. -/
theorem C10_buffer_timer_sync {α : Type} (binds : Keybinds α)
    (d : KeybindDispatcher α) (b : Keybind α) (now dur : Nat)
    (input : KeyInput) (s : Str) (a : α) :
    dispatcherInv (KeybindDispatcher.new binds) ∧
    (dispatcherInv d → dispatcherInv (KeybindDispatcher.dispatch now input d).1) ∧
    dispatcherInv (d.push b) ∧
    (dispatcherInv d → dispatcherInv (d.bind s a).1) ∧
    dispatcherInv (d.reset) ∧
    (dispatcherInv d → dispatcherInv (d.set_timeout dur)) ∧
    (dispatcherInv d → (d.is_ongoing = true ↔ d.ongoing ≠ [])) := by
  refine ⟨by simp [dispatcherInv, KeybindDispatcher.new], ?_,
    by simp [dispatcherInv, KeybindDispatcher.push, KeybindDispatcher.reset], ?_,
    by simp [dispatcherInv, KeybindDispatcher.reset], ?_, ?_⟩
  · intro hinv
    by_cases hi : input.key = Key.Ignored
    · simpa [KeybindDispatcher.dispatch, hi] using hinv
    · rw [dispatch_eq d now input hi]
      cases hf : d.binds.find ((KeybindDispatcher.handle_timeout now d).ongoing ++ [input]) <;>
        simp [dispatcherInv, hf]
  · intro hinv
    unfold KeybindDispatcher.bind
    cases hq : parseKeySeq s
    · simpa [dispatcherInv] using hinv
    · simp [dispatcherInv, KeybindDispatcher.push, KeybindDispatcher.reset]
  · intro hinv
    simpa [dispatcherInv, KeybindDispatcher.set_timeout] using hinv
  · intro hinv
    simp only [KeybindDispatcher.is_ongoing, Option.isSome_iff_ne_none]
    constructor
    · intro hls hemp
      exact hls (hinv.mp hemp)
    · intro hemp hls
      exact hemp (hinv.mpr hls)

/-- Witness for C10 at concrete dispatchers. -/
theorem C10_buffer_timer_sync_witness :
    dispatcherInv (KeybindDispatcher.new (⟨[sampleBindA]⟩ : Keybinds Nat)) ∧
    (KeybindDispatcher.is_ongoing sampleDispatcher = true ↔
      sampleDispatcher.ongoing ≠ []) :=
  ⟨(C10_buffer_timer_sync (⟨[sampleBindA]⟩ : Keybinds Nat) sampleDispatcher
      sampleBindA 0 0 inputA [] 0).1,
   (C10_buffer_timer_sync (⟨[sampleBindA]⟩ : Keybinds Nat) sampleDispatcher
      sampleBindA 0 0 inputA [] 0).2.2.2.2.2.2
     (by constructor <;> intro <;> rfl)⟩

end KB
